import Mathlib

/-!
Shallow embedding of `src/likleyhood.c` (libflex), the flexknot log-likelihood
engine, together with theorems checking the natural-language specification
against it.

Modelling conventions:
* C `double` arithmetic is idealised as real arithmetic (`ℝ`); the C constant
  `PI = 3.141592653589793` is idealised as `Real.pi`.
* C heap arrays are total functions `ℕ → ℝ`; the contents a freshly
  `malloc`ed array starts with are passed in explicitly as "garbage"
  function parameters, so theorems can speak about uninitialised reads.
* `pow(b, e)` with a runtime real exponent is `Real.rpow`; `pow(b, e)` where
  the C source passes an exact integer constant (or an `int` loop index) as
  the exponent is the monomial power `b ^ (n : ℕ)`, which is what C's `pow`
  computes at exact integer exponents, including for negative bases.
* The global mutable state (`struct global_data`, `struct pchip_buffer`) is
  passed and returned explicitly.
-/

noncomputable section

namespace Libflex

/-- The `#define global_border 0.1` padding constant of likleyhood.c. -/
def global_border : ℝ := 0.1

/-- C `struct global_data`: the process-lifetime dataset installed by
`init_globals` — observed frequencies `x`, temperatures `y`, their common
length `len`, and the number of interior knots `order`. -/
structure GlobalData where
  x : ℕ → ℝ
  y : ℕ → ℝ
  len : ℕ
  order : ℕ

/-- C `struct pchip_buffer`: the reusable scratch buffers, `d` of size
`order+2` and `out` of size `len`. -/
structure PchipBuffer where
  d : ℕ → ℝ
  out : ℕ → ℝ

/-- The complete global mutable state of likleyhood.c. -/
structure Globals where
  global_data : GlobalData
  pchip_buffer : PchipBuffer

/-- C `struct coef` (the three coefficient arrays `x`, `y`, `a`) together
with the four counters `x_loc`, `y_loc`, `a_loc`, `f_loc` that are the local
loop state of `kwargs2coef`.  The array fields start out holding the malloc
garbage supplied to `kwargs2coef`. -/
structure DecState where
  x : ℕ → ℝ
  y : ℕ → ℝ
  a : ℕ → ℝ
  x_loc : ℕ
  y_loc : ℕ
  a_loc : ℕ
  f_loc : ℕ

/-- Modelled from the spec: the monotone spline library (`spline.h`,
external; not part of this repository's sources).  Section 4.4 of the spec
gives only its contract: `spline_pchip_set` fills the derivative buffer from
the `n` knot x-positions and y-values, fully overwriting it before any read,
and `spline_pchip_val` fills the output buffer with interpolated values at
the `ne` query points from the knots and derivative data, again fully
overwriting it.  Accordingly each routine is modelled as an arbitrary
function of exactly those inputs, returning the new buffer contents. -/
structure SplineLib where
  spline_pchip_set : ℕ → (ℕ → ℝ) → (ℕ → ℝ) → ℕ → ℝ
  spline_pchip_val : ℕ → (ℕ → ℝ) → (ℕ → ℝ) → (ℕ → ℝ) → ℕ → (ℕ → ℝ) → ℕ → ℝ

/-- `keys[i][0]` of the C code: the leading character of a key, a C string
modelled as a `List Char`.  The empty string yields the NUL character, which
matches no `switch` case. -/
def tagOf (k : List Char) : Char := k.headD (Char.ofNat 0)

/-- One iteration of the `for` loop of `kwargs2coef`: the C `switch` on
`keys[i][0]` with its four cases `x`, `y`, `a`, `f`; any other tag falls
through the switch and leaves the state unchanged. -/
def decodeStep (gd : GlobalData) (s : DecState) (e : List Char × ℝ) : DecState :=
  if tagOf e.1 = 'x' then
    { s with x := Function.update s.x s.x_loc e.2, x_loc := s.x_loc + 1 }
  else if tagOf e.1 = 'y' then
    { s with y := Function.update s.y s.y_loc e.2, y_loc := s.y_loc + 1 }
  else if tagOf e.1 = 'a' then
    { s with a := Function.update s.a s.a_loc e.2, a_loc := s.a_loc + 1 }
  else if tagOf e.1 = 'f' then
    if s.f_loc = 0 then
      { s with x := Function.update s.x 0 (gd.x 0 - global_border),
               y := Function.update s.y 0 e.2,
               f_loc := s.f_loc + 1 }
    else
      { s with x := Function.update s.x (gd.order + 1) (gd.x (gd.len - 1) + global_border),
               y := Function.update s.y (gd.order + 1) e.2 }
  else s

/-- The decoding loop of `kwargs2coef` over the zipped (key, value) pairs. -/
def decodeLoop (gd : GlobalData) (s : DecState) : List (List Char × ℝ) → DecState
  | [] => s
  | e :: l => decodeLoop gd (decodeStep gd s e) l

/-- C `kwargs2coef`: allocates the three coefficient arrays (their fresh
malloc contents are the parameters `gx`, `gy`, `ga`) and runs the decoding
loop with counters initialised to `x_loc = 1`, `y_loc = 1`, `a_loc = 0`,
`f_loc = 0`.  The C function returns the `struct coef` part of the final
state; the model returns the whole final loop state. -/
def kwargs2coef (gd : GlobalData) (gx gy ga : ℕ → ℝ) (keys : List (List Char))
    (val : List ℝ) : DecState :=
  decodeLoop gd ⟨gx, gy, ga, 1, 1, 0, 0⟩ (keys.zip val)

/-- The values of the entries of a proposal vector whose key has leading
character `c`, in encounter order. -/
def tagVals (c : Char) (l : List (List Char × ℝ)) : List ℝ :=
  (l.filter fun e => tagOf e.1 == c).map Prod.snd

/-- Number of entries of a proposal vector whose key has leading character `c`. -/
def tagCount (c : Char) (l : List (List Char × ℝ)) : ℕ := (tagVals c l).length

/-- C `t21fg_edgesa`: the EDGES-paper foreground model. -/
def t21fg_edgesa (a : ℕ → ℝ) (nu : ℝ) : ℝ :=
  let nuc : ℝ := 75;
  a 0 * (nu / nuc) ^ (-2.5 : ℝ)
    + a 1 * (nu / nuc) ^ (-2.5 : ℝ) * Real.log (nu / nuc)
    + a 2 * (nu / nuc) ^ (-2.5 : ℝ) * Real.log (nu / nuc) ^ 2
    + a 3 * (nu / nuc) ^ (-4.5 : ℝ)
    + a 4 * (nu / nuc) ^ (-2.0 : ℝ)

/-- C `t21fg_sims`: the Sims–Pober foreground model.  The C loop runs
`for (i = 4; i < 4+5; i++)` accumulating `pow(10, d[i] * pow(log10(nu/nuc), i))`;
it is rendered as a fold over `j < 5` with loop index `i = 4 + j`.  Note the
exponent of `log10(nu/nuc)` is the array index `4 + j` itself. -/
def t21fg_sims (d : ℕ → ℝ) (nu : ℝ) : ℝ :=
  let nuc : ℝ := 75;
  let Tcal : ℝ := (nu / nuc) ^ (d 0) *
    (d 2 * Real.sin (2 * Real.pi * nu / d 1) + d 3 * Real.cos (2 * Real.pi * nu / d 1));
  let Tfg_pow : ℝ := (List.range 5).foldl
    (fun acc j => acc + (10 : ℝ) ^ (d (4 + j) * Real.logb 10 (nu / nuc) ^ (4 + j))) 0;
  Tfg_pow + Tcal

/-- C `t21fg`: wrapper selecting the active foreground model, which is
`t21fg_edgesa`. -/
def t21fg (a : ℕ → ℝ) (nu : ℝ) : ℝ := t21fg_edgesa a nu

/-- C `logpdf`: Gaussian log-density with fixed standard deviation 0.025. -/
def logpdf (y mean : ℝ) : ℝ :=
  let stdev : ℝ := 0.025;
  let u : ℝ := (y - mean) / stdev;
  -0.5 * u ^ 2 - Real.log (Real.sqrt (2 * Real.pi) * stdev)

/-- Contents of `pchip_buffer.d` after the `spline_pchip_set` call of
`log_likleyhood`: a function of the `order+2` knot positions and values. -/
def pchip_d_of (lib : SplineLib) (gd : GlobalData) (coef : DecState) : ℕ → ℝ :=
  fun j => lib.spline_pchip_set (gd.order + 2) coef.x coef.y j

/-- Contents of `pchip_buffer.out` after the `spline_pchip_val` call of
`log_likleyhood`: the interpolant evaluated at the dataset frequencies. -/
def pchip_out_of (lib : SplineLib) (gd : GlobalData) (coef : DecState) : ℕ → ℝ :=
  fun i => lib.spline_pchip_val (gd.order + 2) coef.x coef.y
    (pchip_d_of lib gd coef) gd.len gd.x i

/-- C `log_likleyhood`: decodes the proposal vector, fits and evaluates the
spline into the scratch buffers, and accumulates the Gaussian log-density of
every observation against spline plus foreground.  Returns the scalar result
together with the global state after the call (the scratch buffers are
overwritten; the dataset is untouched).  `gx`, `gy`, `ga` are the malloc
garbage of the per-call `struct coef` allocations. -/
def log_likleyhood (lib : SplineLib) (g : Globals) (gx gy ga : ℕ → ℝ)
    (keys : List (List Char)) (val : List ℝ) : ℝ × Globals :=
  let coef := kwargs2coef g.global_data gx gy ga keys val;
  let dBuf := pchip_d_of lib g.global_data coef;
  let outBuf := pchip_out_of lib g.global_data coef;
  let retval := (List.range g.global_data.len).foldl
    (fun acc i =>
      acc + logpdf (g.global_data.y i) (outBuf i + t21fg coef.a (g.global_data.x i))) 0;
  (retval, { g with pchip_buffer := ⟨dBuf, outBuf⟩ })

/-- The Sims–Pober power series exactly as the specification text writes it:
the `i`-th series term (`i = 0..4`) uses coefficient `d (4+i)` but exponent
`i` on `log10(nu/nuc)`.  Written only to be compared against `t21fg_sims`,
which was translated from the source. -/
def t21fg_sims_specSeries (d : ℕ → ℝ) (nu : ℝ) : ℝ :=
  let nuc : ℝ := 75;
  let Tcal : ℝ := (nu / nuc) ^ (d 0) *
    (d 2 * Real.sin (2 * Real.pi * nu / d 1) + d 3 * Real.cos (2 * Real.pi * nu / d 1));
  let Tfg_pow : ℝ := (List.range 5).foldl
    (fun acc i => acc + (10 : ℝ) ^ (d (4 + i) * Real.logb 10 (nu / nuc) ^ i)) 0;
  Tfg_pow + Tcal

/-- The EDGES-paper coefficient vector `[1, 2, 3, 4, 5]` used by the spec's
foreground boundary-value test. -/
def aEdges : ℕ → ℝ := fun k => ([1, 2, 3, 4, 5] : List ℝ).getD k 0

/-- Concrete Sims–Pober coefficient vector `d = [0,1,0,0,1,0,0,0,0]`
separating the source's series exponents from the spec's. -/
def dSims : ℕ → ℝ := fun i => if i = 1 ∨ i = 4 then 1 else 0

/-- A dataset with `order = 2`, `len = 5`. -/
def gd6 : GlobalData := ⟨fun i => (i : ℝ), fun _ => 0, 5, 2⟩

/-- A malformed proposal for `gd6`: only one `x`-tagged entry where the
schema for `order = 2` demands two. -/
def keys6 : List (List Char) := [['x'], ['y'], ['y'], ['f'], ['f']]

/-- Values going with `keys6`. -/
def vals6 : List ℝ := [10, 20, 30, 40, 50]

/-- A small dataset used for concrete witnesses. -/
def gd0 : GlobalData := ⟨fun i => (i : ℝ), fun _ => 0, 3, 0⟩

/-- An all-zero decoder state used for concrete witnesses. -/
def s0 : DecState := ⟨fun _ => 0, fun _ => 0, fun _ => 0, 1, 1, 0, 0⟩

/-- A dataset with `order = 2` for the decoder-ordering witness. -/
def gdW : GlobalData := ⟨fun i => (i : ℝ), fun _ => 0, 4, 2⟩

/-- A schema-conformant proposal for `gdW`. -/
def keysW : List (List Char) :=
  [['x'], ['x'], ['y'], ['y'], ['f'], ['f'], ['a'], ['a']]

/-- Values going with `keysW`. -/
def valsW : List ℝ := [1, 2, 3, 4, 5, 6, 7, 8]

/-- An `order = 0` proposal with exactly two `f` entries. -/
def keys5W : List (List Char) := [['f'], ['f'], ['a']]

/-- Values going with `keys5W`. -/
def vals5W : List ℝ := [7, 9, 11]

/-- An `order = 0` proposal with three `f` entries. -/
def keys10W : List (List Char) := [['f'], ['f'], ['f']]

/-- Values going with `keys10W`. -/
def vals10W : List ℝ := [21, 22, 23]

/-! ### List helpers -/

lemma getLastD_default_irrel (l : List ℝ) (d e : ℝ) (h : l ≠ []) :
    l.getLastD d = l.getLastD e := by
  cases l with
  | nil => simp at h
  | cons a t => rw [List.getLastD_cons d a t, List.getLastD_cons e a t]

lemma getD_map_range (f : ℕ → ℝ) (n i : ℕ) (h : i < n) :
    ((List.range n).map f).getD i 0 = f i := by
  have hlen : i < ((List.range n).map f).length := by simpa using h
  rw [List.getD_eq_getElem _ _ hlen, List.getElem_map, List.getElem_range]

lemma map_range_eq_of_getD (f : ℕ → ℝ) (xs : List ℝ)
    (h : ∀ k, k < xs.length → f k = xs.getD k 0) :
    (List.range xs.length).map f = xs := by
  apply List.ext_getElem
  · simp
  · intro i h₁ h₂
    rw [List.getElem_map, List.getElem_range]
    rw [h i h₂, List.getD_eq_getElem _ _ h₂]

lemma foldl_add_eq_sum (f : ℕ → ℝ) :
    ∀ (n : ℕ) (c : ℝ),
      (List.range n).foldl (fun acc i => acc + f i) c = c + ∑ i ∈ Finset.range n, f i := by
  intro n
  induction n with
  | zero => intro c; simp
  | succ m ih =>
    intro c
    rw [List.range_succ, List.foldl_append, ih, Finset.sum_range_succ]
    simp [add_assoc]

/-! ### Tag bookkeeping -/

lemma tagVals_nil (c : Char) : tagVals c [] = [] := rfl

lemma tagVals_cons_self (c : Char) (e : List Char × ℝ) (l : List (List Char × ℝ))
    (h : tagOf e.1 = c) : tagVals c (e :: l) = e.2 :: tagVals c l := by
  simp [tagVals, List.filter_cons, h]

lemma tagVals_cons_ne (c : Char) (e : List Char × ℝ) (l : List (List Char × ℝ))
    (h : tagOf e.1 ≠ c) : tagVals c (e :: l) = tagVals c l := by
  simp [tagVals, List.filter_cons, h]

lemma tagCount_cons_self (c : Char) (e : List Char × ℝ) (l : List (List Char × ℝ))
    (h : tagOf e.1 = c) : tagCount c (e :: l) = tagCount c l + 1 := by
  simp [tagCount, tagVals_cons_self c e l h]

lemma tagCount_cons_ne (c : Char) (e : List Char × ℝ) (l : List (List Char × ℝ))
    (h : tagOf e.1 ≠ c) : tagCount c (e :: l) = tagCount c l := by
  simp [tagCount, tagVals_cons_ne c e l h]

lemma tagCount_nil (c : Char) : tagCount c [] = 0 := rfl

lemma tagVals_eq_nil_of_count (c : Char) (l : List (List Char × ℝ))
    (h : tagCount c l = 0) : tagVals c l = [] :=
  List.length_eq_zero.mp h

/-! ### decodeStep case shapes -/

lemma decodeStep_x (gd : GlobalData) (s : DecState) (e : List Char × ℝ)
    (h : tagOf e.1 = 'x') :
    decodeStep gd s e
      = { s with x := Function.update s.x s.x_loc e.2, x_loc := s.x_loc + 1 } := by
  simp [decodeStep, h]

lemma decodeStep_y (gd : GlobalData) (s : DecState) (e : List Char × ℝ)
    (h : tagOf e.1 = 'y') :
    decodeStep gd s e
      = { s with y := Function.update s.y s.y_loc e.2, y_loc := s.y_loc + 1 } := by
  simp [decodeStep, h]

lemma decodeStep_a (gd : GlobalData) (s : DecState) (e : List Char × ℝ)
    (h : tagOf e.1 = 'a') :
    decodeStep gd s e
      = { s with a := Function.update s.a s.a_loc e.2, a_loc := s.a_loc + 1 } := by
  simp [decodeStep, h]

lemma decodeStep_f_first (gd : GlobalData) (s : DecState) (e : List Char × ℝ)
    (h : tagOf e.1 = 'f') (h0 : s.f_loc = 0) :
    decodeStep gd s e
      = { s with x := Function.update s.x 0 (gd.x 0 - global_border),
                 y := Function.update s.y 0 e.2,
                 f_loc := s.f_loc + 1 } := by
  simp [decodeStep, h, h0]

lemma decodeStep_f_rest (gd : GlobalData) (s : DecState) (e : List Char × ℝ)
    (h : tagOf e.1 = 'f') (h0 : s.f_loc ≠ 0) :
    decodeStep gd s e
      = { s with x := Function.update s.x (gd.order + 1) (gd.x (gd.len - 1) + global_border),
                 y := Function.update s.y (gd.order + 1) e.2 } := by
  simp [decodeStep, h, h0]

lemma decodeStep_other (gd : GlobalData) (s : DecState) (e : List Char × ℝ)
    (h : tagOf e.1 ∉ (['x', 'y', 'a', 'f'] : List Char)) :
    decodeStep gd s e = s := by
  simp only [List.mem_cons, List.mem_singleton, not_or] at h
  obtain ⟨h1, h2, h3, h4⟩ := h
  simp [decodeStep, h1, h2, h3, h4]

/-! ### decodeLoop unfolding -/

lemma decodeLoop_nil (gd : GlobalData) (s : DecState) : decodeLoop gd s [] = s := rfl

lemma decodeLoop_cons (gd : GlobalData) (s : DecState) (e : List Char × ℝ)
    (l : List (List Char × ℝ)) :
    decodeLoop gd s (e :: l) = decodeLoop gd (decodeStep gd s e) l := rfl

lemma decodeLoop_append (gd : GlobalData) :
    ∀ (l₁ l₂ : List (List Char × ℝ)) (s : DecState),
      decodeLoop gd s (l₁ ++ l₂) = decodeLoop gd (decodeLoop gd s l₁) l₂ := by
  intro l₁
  induction l₁ with
  | nil => intro l₂ s; rfl
  | cons e l ih => intro l₂ s; rw [List.cons_append, decodeLoop_cons, decodeLoop_cons, ih]

/-! ### Counter evolution -/

lemma decodeLoop_x_loc (gd : GlobalData) :
    ∀ (l : List (List Char × ℝ)) (s : DecState),
      (decodeLoop gd s l).x_loc = s.x_loc + tagCount 'x' l := by
  intro l
  induction l with
  | nil => intro s; simp [decodeLoop_nil, tagCount_nil]
  | cons e l ih =>
    intro s
    rw [decodeLoop_cons]
    by_cases hx : tagOf e.1 = 'x'
    · rw [decodeStep_x gd s e hx, ih, tagCount_cons_self _ _ _ hx]; simp; omega
    by_cases hy : tagOf e.1 = 'y'
    · rw [decodeStep_y gd s e hy, ih, tagCount_cons_ne _ _ _ (by simp [hy])]
    by_cases ha : tagOf e.1 = 'a'
    · rw [decodeStep_a gd s e ha, ih, tagCount_cons_ne _ _ _ (by simp [ha])]
    by_cases hf : tagOf e.1 = 'f'
    · by_cases h0 : s.f_loc = 0
      · rw [decodeStep_f_first gd s e hf h0, ih, tagCount_cons_ne _ _ _ (by simp [hf])]
      · rw [decodeStep_f_rest gd s e hf h0, ih, tagCount_cons_ne _ _ _ (by simp [hf])]
    · rw [decodeStep_other gd s e (by simp [hx, hy, ha, hf]), ih,
        tagCount_cons_ne _ _ _ hx]

lemma decodeLoop_y_loc (gd : GlobalData) :
    ∀ (l : List (List Char × ℝ)) (s : DecState),
      (decodeLoop gd s l).y_loc = s.y_loc + tagCount 'y' l := by
  intro l
  induction l with
  | nil => intro s; simp [decodeLoop_nil, tagCount_nil]
  | cons e l ih =>
    intro s
    rw [decodeLoop_cons]
    by_cases hx : tagOf e.1 = 'x'
    · rw [decodeStep_x gd s e hx, ih, tagCount_cons_ne _ _ _ (by simp [hx])]
    by_cases hy : tagOf e.1 = 'y'
    · rw [decodeStep_y gd s e hy, ih, tagCount_cons_self _ _ _ hy]; simp; omega
    by_cases ha : tagOf e.1 = 'a'
    · rw [decodeStep_a gd s e ha, ih, tagCount_cons_ne _ _ _ (by simp [ha])]
    by_cases hf : tagOf e.1 = 'f'
    · by_cases h0 : s.f_loc = 0
      · rw [decodeStep_f_first gd s e hf h0, ih, tagCount_cons_ne _ _ _ (by simp [hf])]
      · rw [decodeStep_f_rest gd s e hf h0, ih, tagCount_cons_ne _ _ _ (by simp [hf])]
    · rw [decodeStep_other gd s e (by simp [hx, hy, ha, hf]), ih,
        tagCount_cons_ne _ _ _ hy]

lemma decodeLoop_a_loc (gd : GlobalData) :
    ∀ (l : List (List Char × ℝ)) (s : DecState),
      (decodeLoop gd s l).a_loc = s.a_loc + tagCount 'a' l := by
  intro l
  induction l with
  | nil => intro s; simp [decodeLoop_nil, tagCount_nil]
  | cons e l ih =>
    intro s
    rw [decodeLoop_cons]
    by_cases hx : tagOf e.1 = 'x'
    · rw [decodeStep_x gd s e hx, ih, tagCount_cons_ne _ _ _ (by simp [hx])]
    by_cases hy : tagOf e.1 = 'y'
    · rw [decodeStep_y gd s e hy, ih, tagCount_cons_ne _ _ _ (by simp [hy])]
    by_cases ha : tagOf e.1 = 'a'
    · rw [decodeStep_a gd s e ha, ih, tagCount_cons_self _ _ _ ha]; simp; omega
    by_cases hf : tagOf e.1 = 'f'
    · by_cases h0 : s.f_loc = 0
      · rw [decodeStep_f_first gd s e hf h0, ih, tagCount_cons_ne _ _ _ (by simp [hf])]
      · rw [decodeStep_f_rest gd s e hf h0, ih, tagCount_cons_ne _ _ _ (by simp [hf])]
    · rw [decodeStep_other gd s e (by simp [hx, hy, ha, hf]), ih,
        tagCount_cons_ne _ _ _ ha]

lemma decodeLoop_f_loc_ne (gd : GlobalData) :
    ∀ (l : List (List Char × ℝ)) (s : DecState),
      s.f_loc ≠ 0 → (decodeLoop gd s l).f_loc = s.f_loc := by
  intro l
  induction l with
  | nil => intro s _; rfl
  | cons e l ih =>
    intro s h
    rw [decodeLoop_cons]
    by_cases hx : tagOf e.1 = 'x'
    · rw [decodeStep_x gd s e hx]; exact ih _ (by exact h)
    by_cases hy : tagOf e.1 = 'y'
    · rw [decodeStep_y gd s e hy]; exact ih _ (by exact h)
    by_cases ha : tagOf e.1 = 'a'
    · rw [decodeStep_a gd s e ha]; exact ih _ (by exact h)
    by_cases hf : tagOf e.1 = 'f'
    · rw [decodeStep_f_rest gd s e hf h]; exact ih _ (by exact h)
    · rw [decodeStep_other gd s e (by simp [hx, hy, ha, hf])]; exact ih _ h

lemma decodeLoop_f_loc_zero (gd : GlobalData) :
    ∀ (l : List (List Char × ℝ)) (s : DecState),
      s.f_loc = 0 → 1 ≤ tagCount 'f' l → (decodeLoop gd s l).f_loc = 1 := by
  intro l
  induction l with
  | nil => intro s _ hc; rw [tagCount_nil] at hc; omega
  | cons e l ih =>
    intro s h0 hc
    rw [decodeLoop_cons]
    by_cases hx : tagOf e.1 = 'x'
    · rw [decodeStep_x gd s e hx]
      exact ih _ (by exact h0) (by rwa [tagCount_cons_ne _ _ _ (by simp [hx])] at hc)
    by_cases hy : tagOf e.1 = 'y'
    · rw [decodeStep_y gd s e hy]
      exact ih _ (by exact h0) (by rwa [tagCount_cons_ne _ _ _ (by simp [hy])] at hc)
    by_cases ha : tagOf e.1 = 'a'
    · rw [decodeStep_a gd s e ha]
      exact ih _ (by exact h0) (by rwa [tagCount_cons_ne _ _ _ (by simp [ha])] at hc)
    by_cases hf : tagOf e.1 = 'f'
    · rw [decodeStep_f_first gd s e hf h0,
        decodeLoop_f_loc_ne gd l _ (by show s.f_loc + 1 ≠ 0; omega)]
      show s.f_loc + 1 = 1
      omega
    · rw [decodeStep_other gd s e (by simp [hx, hy, ha, hf])]
      exact ih _ h0 (by rwa [tagCount_cons_ne _ _ _ hf] at hc)

/-! ### Preservation of already-written slots -/

lemma decodeLoop_x_lower (gd : GlobalData) :
    ∀ (l : List (List Char × ℝ)) (s : DecState) (i : ℕ),
      1 ≤ i → i < s.x_loc → i ≤ gd.order → (decodeLoop gd s l).x i = s.x i := by
  intro l
  induction l with
  | nil => intro s i _ _ _; rfl
  | cons e l ih =>
    intro s i h1 h2 h3
    rw [decodeLoop_cons]
    by_cases hx : tagOf e.1 = 'x'
    · rw [decodeStep_x gd s e hx, ih _ i h1 (by show i < s.x_loc + 1; omega) h3]
      exact Function.update_noteq (by omega) _ _
    by_cases hy : tagOf e.1 = 'y'
    · rw [decodeStep_y gd s e hy]; exact ih _ i h1 (by exact h2) h3
    by_cases ha : tagOf e.1 = 'a'
    · rw [decodeStep_a gd s e ha]; exact ih _ i h1 (by exact h2) h3
    by_cases hf : tagOf e.1 = 'f'
    · by_cases h0 : s.f_loc = 0
      · rw [decodeStep_f_first gd s e hf h0, ih _ i h1 (by exact h2) h3]
        exact Function.update_noteq (by omega) _ _
      · rw [decodeStep_f_rest gd s e hf h0, ih _ i h1 (by exact h2) h3]
        exact Function.update_noteq (by omega) _ _
    · rw [decodeStep_other gd s e (by simp [hx, hy, ha, hf])]
      exact ih _ i h1 h2 h3

lemma decodeLoop_y_lower (gd : GlobalData) :
    ∀ (l : List (List Char × ℝ)) (s : DecState) (i : ℕ),
      1 ≤ i → i < s.y_loc → i ≤ gd.order → (decodeLoop gd s l).y i = s.y i := by
  intro l
  induction l with
  | nil => intro s i _ _ _; rfl
  | cons e l ih =>
    intro s i h1 h2 h3
    rw [decodeLoop_cons]
    by_cases hx : tagOf e.1 = 'x'
    · rw [decodeStep_x gd s e hx]; exact ih _ i h1 (by exact h2) h3
    by_cases hy : tagOf e.1 = 'y'
    · rw [decodeStep_y gd s e hy, ih _ i h1 (by show i < s.y_loc + 1; omega) h3]
      exact Function.update_noteq (by omega) _ _
    by_cases ha : tagOf e.1 = 'a'
    · rw [decodeStep_a gd s e ha]; exact ih _ i h1 (by exact h2) h3
    by_cases hf : tagOf e.1 = 'f'
    · by_cases h0 : s.f_loc = 0
      · rw [decodeStep_f_first gd s e hf h0, ih _ i h1 (by exact h2) h3]
        exact Function.update_noteq (by omega) _ _
      · rw [decodeStep_f_rest gd s e hf h0, ih _ i h1 (by exact h2) h3]
        exact Function.update_noteq (by omega) _ _
    · rw [decodeStep_other gd s e (by simp [hx, hy, ha, hf])]
      exact ih _ i h1 h2 h3

lemma decodeLoop_a_lower (gd : GlobalData) :
    ∀ (l : List (List Char × ℝ)) (s : DecState) (i : ℕ),
      i < s.a_loc → (decodeLoop gd s l).a i = s.a i := by
  intro l
  induction l with
  | nil => intro s i _; rfl
  | cons e l ih =>
    intro s i h2
    rw [decodeLoop_cons]
    by_cases hx : tagOf e.1 = 'x'
    · rw [decodeStep_x gd s e hx]; exact ih _ i (by exact h2)
    by_cases hy : tagOf e.1 = 'y'
    · rw [decodeStep_y gd s e hy]; exact ih _ i (by exact h2)
    by_cases ha : tagOf e.1 = 'a'
    · rw [decodeStep_a gd s e ha, ih _ i (by show i < s.a_loc + 1; omega)]
      exact Function.update_noteq (by omega) _ _
    by_cases hf : tagOf e.1 = 'f'
    · by_cases h0 : s.f_loc = 0
      · rw [decodeStep_f_first gd s e hf h0]; exact ih _ i (by exact h2)
      · rw [decodeStep_f_rest gd s e hf h0]; exact ih _ i (by exact h2)
    · rw [decodeStep_other gd s e (by simp [hx, hy, ha, hf])]
      exact ih _ i h2

lemma decodeLoop_x_zero (gd : GlobalData) :
    ∀ (l : List (List Char × ℝ)) (s : DecState),
      s.f_loc ≠ 0 → 1 ≤ s.x_loc → (decodeLoop gd s l).x 0 = s.x 0 := by
  intro l
  induction l with
  | nil => intro s _ _; rfl
  | cons e l ih =>
    intro s h hx1
    rw [decodeLoop_cons]
    by_cases hx : tagOf e.1 = 'x'
    · rw [decodeStep_x gd s e hx, ih _ (by exact h) (by show 1 ≤ s.x_loc + 1; omega)]
      exact Function.update_noteq (by omega) _ _
    by_cases hy : tagOf e.1 = 'y'
    · rw [decodeStep_y gd s e hy]; exact ih _ (by exact h) (by exact hx1)
    by_cases ha : tagOf e.1 = 'a'
    · rw [decodeStep_a gd s e ha]; exact ih _ (by exact h) (by exact hx1)
    by_cases hf : tagOf e.1 = 'f'
    · rw [decodeStep_f_rest gd s e hf h, ih _ (by exact h) (by exact hx1)]
      show Function.update s.x (gd.order + 1) (gd.x (gd.len - 1) + global_border) 0 = s.x 0
      exact Function.update_noteq (by omega) _ _
    · rw [decodeStep_other gd s e (by simp [hx, hy, ha, hf])]
      exact ih _ h hx1

lemma decodeLoop_y_zero (gd : GlobalData) :
    ∀ (l : List (List Char × ℝ)) (s : DecState),
      s.f_loc ≠ 0 → 1 ≤ s.y_loc → (decodeLoop gd s l).y 0 = s.y 0 := by
  intro l
  induction l with
  | nil => intro s _ _; rfl
  | cons e l ih =>
    intro s h hy1
    rw [decodeLoop_cons]
    by_cases hx : tagOf e.1 = 'x'
    · rw [decodeStep_x gd s e hx]; exact ih _ (by exact h) (by exact hy1)
    by_cases hy : tagOf e.1 = 'y'
    · rw [decodeStep_y gd s e hy, ih _ (by exact h) (by show 1 ≤ s.y_loc + 1; omega)]
      exact Function.update_noteq (by omega) _ _
    by_cases ha : tagOf e.1 = 'a'
    · rw [decodeStep_a gd s e ha]; exact ih _ (by exact h) (by exact hy1)
    by_cases hf : tagOf e.1 = 'f'
    · rw [decodeStep_f_rest gd s e hf h, ih _ (by exact h) (by exact hy1)]
      show Function.update s.y (gd.order + 1) e.2 0 = s.y 0
      exact Function.update_noteq (by omega) _ _
    · rw [decodeStep_other gd s e (by simp [hx, hy, ha, hf])]
      exact ih _ h hy1

lemma decodeLoop_x_top (gd : GlobalData) :
    ∀ (l : List (List Char × ℝ)) (s : DecState),
      tagCount 'f' l = 0 → s.x_loc + tagCount 'x' l ≤ gd.order + 1 →
      (decodeLoop gd s l).x (gd.order + 1) = s.x (gd.order + 1) := by
  intro l
  induction l with
  | nil => intro s _ _; rfl
  | cons e l ih =>
    intro s hf0 hb
    rw [decodeLoop_cons]
    by_cases hx : tagOf e.1 = 'x'
    · have hc := tagCount_cons_self 'x' e l hx
      rw [decodeStep_x gd s e hx,
        ih _ (by rwa [tagCount_cons_ne _ _ _ (by simp [hx])] at hf0)
          (by show s.x_loc + 1 + tagCount 'x' l ≤ gd.order + 1; omega)]
      exact Function.update_noteq (by omega) _ _
    by_cases hy : tagOf e.1 = 'y'
    · rw [decodeStep_y gd s e hy,
        ih _ (by rwa [tagCount_cons_ne _ _ _ (by simp [hy])] at hf0)
          (by rwa [tagCount_cons_ne _ _ _ (by simp [hy])] at hb)]
    by_cases ha : tagOf e.1 = 'a'
    · rw [decodeStep_a gd s e ha,
        ih _ (by rwa [tagCount_cons_ne _ _ _ (by simp [ha])] at hf0)
          (by rwa [tagCount_cons_ne _ _ _ (by simp [ha])] at hb)]
    by_cases hf : tagOf e.1 = 'f'
    · rw [tagCount_cons_self 'f' e l hf] at hf0; omega
    · rw [decodeStep_other gd s e (by simp [hx, hy, ha, hf]),
        ih _ (by rwa [tagCount_cons_ne _ _ _ hf] at hf0)
          (by rwa [tagCount_cons_ne _ _ _ hx] at hb)]

lemma decodeLoop_y_top (gd : GlobalData) :
    ∀ (l : List (List Char × ℝ)) (s : DecState),
      tagCount 'f' l = 0 → s.y_loc + tagCount 'y' l ≤ gd.order + 1 →
      (decodeLoop gd s l).y (gd.order + 1) = s.y (gd.order + 1) := by
  intro l
  induction l with
  | nil => intro s _ _; rfl
  | cons e l ih =>
    intro s hf0 hb
    rw [decodeLoop_cons]
    by_cases hx : tagOf e.1 = 'x'
    · rw [decodeStep_x gd s e hx,
        ih _ (by rwa [tagCount_cons_ne _ _ _ (by simp [hx])] at hf0)
          (by rwa [tagCount_cons_ne _ _ _ (by simp [hx])] at hb)]
    by_cases hy : tagOf e.1 = 'y'
    · have hc := tagCount_cons_self 'y' e l hy
      rw [decodeStep_y gd s e hy,
        ih _ (by rwa [tagCount_cons_ne _ _ _ (by simp [hy])] at hf0)
          (by show s.y_loc + 1 + tagCount 'y' l ≤ gd.order + 1; omega)]
      exact Function.update_noteq (by omega) _ _
    by_cases ha : tagOf e.1 = 'a'
    · rw [decodeStep_a gd s e ha,
        ih _ (by rwa [tagCount_cons_ne _ _ _ (by simp [ha])] at hf0)
          (by rwa [tagCount_cons_ne _ _ _ (by simp [ha])] at hb)]
    by_cases hf : tagOf e.1 = 'f'
    · rw [tagCount_cons_self 'f' e l hf] at hf0; omega
    · rw [decodeStep_other gd s e (by simp [hx, hy, ha, hf]),
        ih _ (by rwa [tagCount_cons_ne _ _ _ hf] at hf0)
          (by rwa [tagCount_cons_ne _ _ _ hy] at hb)]

/-! ### Slot contents in encounter order -/

lemma decodeLoop_x_slot (gd : GlobalData) :
    ∀ (l : List (List Char × ℝ)) (s : DecState) (k : ℕ),
      1 ≤ s.x_loc → s.x_loc + tagCount 'x' l ≤ gd.order + 1 → k < tagCount 'x' l →
      (decodeLoop gd s l).x (s.x_loc + k) = (tagVals 'x' l).getD k 0 := by
  intro l
  induction l with
  | nil => intro s k _ _ hk; rw [tagCount_nil] at hk; omega
  | cons e l ih =>
    intro s k h1 hb hk
    rw [decodeLoop_cons]
    by_cases hx : tagOf e.1 = 'x'
    · have hc := tagCount_cons_self 'x' e l hx
      rw [tagVals_cons_self 'x' e l hx]
      cases k with
      | zero =>
        rw [List.getD_cons_zero, Nat.add_zero, decodeStep_x gd s e hx,
          decodeLoop_x_lower gd l _ s.x_loc h1
            (by show s.x_loc < s.x_loc + 1; omega) (by omega)]
        show Function.update s.x s.x_loc e.2 s.x_loc = e.2
        exact Function.update_same _ _ _
      | succ k =>
        rw [List.getD_cons_succ, decodeStep_x gd s e hx,
          show s.x_loc + (k + 1) = s.x_loc + 1 + k from by omega]
        exact ih _ k (by show 1 ≤ s.x_loc + 1; omega)
          (by show s.x_loc + 1 + tagCount 'x' l ≤ gd.order + 1; omega) (by omega)
    by_cases hy : tagOf e.1 = 'y'
    · rw [decodeStep_y gd s e hy, tagVals_cons_ne 'x' e l (by simp [hy])]
      exact ih _ k (by exact h1)
        (by rwa [tagCount_cons_ne _ _ _ (by simp [hy])] at hb)
        (by rwa [tagCount_cons_ne _ _ _ (by simp [hy])] at hk)
    by_cases ha : tagOf e.1 = 'a'
    · rw [decodeStep_a gd s e ha, tagVals_cons_ne 'x' e l (by simp [ha])]
      exact ih _ k (by exact h1)
        (by rwa [tagCount_cons_ne _ _ _ (by simp [ha])] at hb)
        (by rwa [tagCount_cons_ne _ _ _ (by simp [ha])] at hk)
    by_cases hf : tagOf e.1 = 'f'
    · rw [tagVals_cons_ne 'x' e l (by simp [hf])]
      by_cases h0 : s.f_loc = 0
      · rw [decodeStep_f_first gd s e hf h0]
        exact ih _ k (by exact h1)
          (by rwa [tagCount_cons_ne _ _ _ (by simp [hf])] at hb)
          (by rwa [tagCount_cons_ne _ _ _ (by simp [hf])] at hk)
      · rw [decodeStep_f_rest gd s e hf h0]
        exact ih _ k (by exact h1)
          (by rwa [tagCount_cons_ne _ _ _ (by simp [hf])] at hb)
          (by rwa [tagCount_cons_ne _ _ _ (by simp [hf])] at hk)
    · rw [decodeStep_other gd s e (by simp [hx, hy, ha, hf]),
        tagVals_cons_ne 'x' e l hx]
      exact ih _ k h1 (by rwa [tagCount_cons_ne _ _ _ hx] at hb)
        (by rwa [tagCount_cons_ne _ _ _ hx] at hk)

lemma decodeLoop_y_slot (gd : GlobalData) :
    ∀ (l : List (List Char × ℝ)) (s : DecState) (k : ℕ),
      1 ≤ s.y_loc → s.y_loc + tagCount 'y' l ≤ gd.order + 1 → k < tagCount 'y' l →
      (decodeLoop gd s l).y (s.y_loc + k) = (tagVals 'y' l).getD k 0 := by
  intro l
  induction l with
  | nil => intro s k _ _ hk; rw [tagCount_nil] at hk; omega
  | cons e l ih =>
    intro s k h1 hb hk
    rw [decodeLoop_cons]
    by_cases hx : tagOf e.1 = 'x'
    · rw [decodeStep_x gd s e hx, tagVals_cons_ne 'y' e l (by simp [hx])]
      exact ih _ k (by exact h1)
        (by rwa [tagCount_cons_ne _ _ _ (by simp [hx])] at hb)
        (by rwa [tagCount_cons_ne _ _ _ (by simp [hx])] at hk)
    by_cases hy : tagOf e.1 = 'y'
    · have hc := tagCount_cons_self 'y' e l hy
      rw [tagVals_cons_self 'y' e l hy]
      cases k with
      | zero =>
        rw [List.getD_cons_zero, Nat.add_zero, decodeStep_y gd s e hy,
          decodeLoop_y_lower gd l _ s.y_loc h1
            (by show s.y_loc < s.y_loc + 1; omega) (by omega)]
        show Function.update s.y s.y_loc e.2 s.y_loc = e.2
        exact Function.update_same _ _ _
      | succ k =>
        rw [List.getD_cons_succ, decodeStep_y gd s e hy,
          show s.y_loc + (k + 1) = s.y_loc + 1 + k from by omega]
        exact ih _ k (by show 1 ≤ s.y_loc + 1; omega)
          (by show s.y_loc + 1 + tagCount 'y' l ≤ gd.order + 1; omega) (by omega)
    by_cases ha : tagOf e.1 = 'a'
    · rw [decodeStep_a gd s e ha, tagVals_cons_ne 'y' e l (by simp [ha])]
      exact ih _ k (by exact h1)
        (by rwa [tagCount_cons_ne _ _ _ (by simp [ha])] at hb)
        (by rwa [tagCount_cons_ne _ _ _ (by simp [ha])] at hk)
    by_cases hf : tagOf e.1 = 'f'
    · rw [tagVals_cons_ne 'y' e l (by simp [hf])]
      by_cases h0 : s.f_loc = 0
      · rw [decodeStep_f_first gd s e hf h0]
        exact ih _ k (by exact h1)
          (by rwa [tagCount_cons_ne _ _ _ (by simp [hf])] at hb)
          (by rwa [tagCount_cons_ne _ _ _ (by simp [hf])] at hk)
      · rw [decodeStep_f_rest gd s e hf h0]
        exact ih _ k (by exact h1)
          (by rwa [tagCount_cons_ne _ _ _ (by simp [hf])] at hb)
          (by rwa [tagCount_cons_ne _ _ _ (by simp [hf])] at hk)
    · rw [decodeStep_other gd s e (by simp [hx, hy, ha, hf]),
        tagVals_cons_ne 'y' e l hy]
      exact ih _ k h1 (by rwa [tagCount_cons_ne _ _ _ hy] at hb)
        (by rwa [tagCount_cons_ne _ _ _ hy] at hk)

lemma decodeLoop_a_slot (gd : GlobalData) :
    ∀ (l : List (List Char × ℝ)) (s : DecState) (k : ℕ),
      k < tagCount 'a' l →
      (decodeLoop gd s l).a (s.a_loc + k) = (tagVals 'a' l).getD k 0 := by
  intro l
  induction l with
  | nil => intro s k hk; rw [tagCount_nil] at hk; omega
  | cons e l ih =>
    intro s k hk
    rw [decodeLoop_cons]
    by_cases hx : tagOf e.1 = 'x'
    · rw [decodeStep_x gd s e hx, tagVals_cons_ne 'a' e l (by simp [hx])]
      exact ih _ k (by rwa [tagCount_cons_ne _ _ _ (by simp [hx])] at hk)
    by_cases hy : tagOf e.1 = 'y'
    · rw [decodeStep_y gd s e hy, tagVals_cons_ne 'a' e l (by simp [hy])]
      exact ih _ k (by rwa [tagCount_cons_ne _ _ _ (by simp [hy])] at hk)
    by_cases ha : tagOf e.1 = 'a'
    · have hc := tagCount_cons_self 'a' e l ha
      rw [tagVals_cons_self 'a' e l ha]
      cases k with
      | zero =>
        rw [List.getD_cons_zero, Nat.add_zero, decodeStep_a gd s e ha,
          decodeLoop_a_lower gd l _ s.a_loc (by show s.a_loc < s.a_loc + 1; omega)]
        show Function.update s.a s.a_loc e.2 s.a_loc = e.2
        exact Function.update_same _ _ _
      | succ k =>
        rw [List.getD_cons_succ, decodeStep_a gd s e ha,
          show s.a_loc + (k + 1) = s.a_loc + 1 + k from by omega]
        exact ih _ k (by omega)
    by_cases hf : tagOf e.1 = 'f'
    · rw [tagVals_cons_ne 'a' e l (by simp [hf])]
      by_cases h0 : s.f_loc = 0
      · rw [decodeStep_f_first gd s e hf h0]
        exact ih _ k (by rwa [tagCount_cons_ne _ _ _ (by simp [hf])] at hk)
      · rw [decodeStep_f_rest gd s e hf h0]
        exact ih _ k (by rwa [tagCount_cons_ne _ _ _ (by simp [hf])] at hk)
    · rw [decodeStep_other gd s e (by simp [hx, hy, ha, hf]),
        tagVals_cons_ne 'a' e l ha]
      exact ih _ k (by rwa [tagCount_cons_ne _ _ _ ha] at hk)

/-! ### Boundary-knot writes driven by f-tagged entries -/

lemma decodeLoop_f_first_x (gd : GlobalData) :
    ∀ (l : List (List Char × ℝ)) (s : DecState),
      s.f_loc = 0 → 1 ≤ s.x_loc → 1 ≤ tagCount 'f' l →
      (decodeLoop gd s l).x 0 = gd.x 0 - global_border := by
  intro l
  induction l with
  | nil => intro s _ _ hc; rw [tagCount_nil] at hc; omega
  | cons e l ih =>
    intro s h0 hx1 hc
    rw [decodeLoop_cons]
    by_cases hx : tagOf e.1 = 'x'
    · rw [decodeStep_x gd s e hx]
      exact ih _ (by exact h0) (by show 1 ≤ s.x_loc + 1; omega)
        (by rwa [tagCount_cons_ne _ _ _ (by simp [hx])] at hc)
    by_cases hy : tagOf e.1 = 'y'
    · rw [decodeStep_y gd s e hy]
      exact ih _ (by exact h0) (by exact hx1)
        (by rwa [tagCount_cons_ne _ _ _ (by simp [hy])] at hc)
    by_cases ha : tagOf e.1 = 'a'
    · rw [decodeStep_a gd s e ha]
      exact ih _ (by exact h0) (by exact hx1)
        (by rwa [tagCount_cons_ne _ _ _ (by simp [ha])] at hc)
    by_cases hf : tagOf e.1 = 'f'
    · rw [decodeStep_f_first gd s e hf h0,
        decodeLoop_x_zero gd l _ (by show s.f_loc + 1 ≠ 0; omega) (by exact hx1)]
      show Function.update s.x 0 (gd.x 0 - global_border) 0 = gd.x 0 - global_border
      exact Function.update_same _ _ _
    · rw [decodeStep_other gd s e (by simp [hx, hy, ha, hf])]
      exact ih _ h0 hx1 (by rwa [tagCount_cons_ne _ _ _ hf] at hc)

lemma decodeLoop_f_first_y (gd : GlobalData) :
    ∀ (l : List (List Char × ℝ)) (s : DecState),
      s.f_loc = 0 → 1 ≤ s.y_loc → 1 ≤ tagCount 'f' l →
      (decodeLoop gd s l).y 0 = (tagVals 'f' l).headD 0 := by
  intro l
  induction l with
  | nil => intro s _ _ hc; rw [tagCount_nil] at hc; omega
  | cons e l ih =>
    intro s h0 hy1 hc
    rw [decodeLoop_cons]
    by_cases hx : tagOf e.1 = 'x'
    · rw [decodeStep_x gd s e hx, tagVals_cons_ne 'f' e l (by simp [hx])]
      exact ih _ (by exact h0) (by exact hy1)
        (by rwa [tagCount_cons_ne _ _ _ (by simp [hx])] at hc)
    by_cases hy : tagOf e.1 = 'y'
    · rw [decodeStep_y gd s e hy, tagVals_cons_ne 'f' e l (by simp [hy])]
      exact ih _ (by exact h0) (by show 1 ≤ s.y_loc + 1; omega)
        (by rwa [tagCount_cons_ne _ _ _ (by simp [hy])] at hc)
    by_cases ha : tagOf e.1 = 'a'
    · rw [decodeStep_a gd s e ha, tagVals_cons_ne 'f' e l (by simp [ha])]
      exact ih _ (by exact h0) (by exact hy1)
        (by rwa [tagCount_cons_ne _ _ _ (by simp [ha])] at hc)
    by_cases hf : tagOf e.1 = 'f'
    · rw [decodeStep_f_first gd s e hf h0,
        decodeLoop_y_zero gd l _ (by show s.f_loc + 1 ≠ 0; omega) (by exact hy1),
        tagVals_cons_self 'f' e l hf, List.headD_cons]
      show Function.update s.y 0 e.2 0 = e.2
      exact Function.update_same _ _ _
    · rw [decodeStep_other gd s e (by simp [hx, hy, ha, hf]),
        tagVals_cons_ne 'f' e l hf]
      exact ih _ h0 hy1 (by rwa [tagCount_cons_ne _ _ _ hf] at hc)

lemma decodeLoop_f_last_x (gd : GlobalData) :
    ∀ (l : List (List Char × ℝ)) (s : DecState),
      s.f_loc ≠ 0 → 1 ≤ tagCount 'f' l → s.x_loc + tagCount 'x' l ≤ gd.order + 1 →
      (decodeLoop gd s l).x (gd.order + 1) = gd.x (gd.len - 1) + global_border := by
  intro l
  induction l with
  | nil => intro s _ hc _; rw [tagCount_nil] at hc; omega
  | cons e l ih =>
    intro s h hc hb
    rw [decodeLoop_cons]
    by_cases hx : tagOf e.1 = 'x'
    · have hcx := tagCount_cons_self 'x' e l hx
      rw [decodeStep_x gd s e hx]
      exact ih _ (by exact h)
        (by rwa [tagCount_cons_ne _ _ _ (by simp [hx])] at hc)
        (by show s.x_loc + 1 + tagCount 'x' l ≤ gd.order + 1; omega)
    by_cases hy : tagOf e.1 = 'y'
    · rw [decodeStep_y gd s e hy]
      exact ih _ (by exact h)
        (by rwa [tagCount_cons_ne _ _ _ (by simp [hy])] at hc)
        (by rwa [tagCount_cons_ne _ _ _ (by simp [hy])] at hb)
    by_cases ha : tagOf e.1 = 'a'
    · rw [decodeStep_a gd s e ha]
      exact ih _ (by exact h)
        (by rwa [tagCount_cons_ne _ _ _ (by simp [ha])] at hc)
        (by rwa [tagCount_cons_ne _ _ _ (by simp [ha])] at hb)
    by_cases hf : tagOf e.1 = 'f'
    · by_cases hcl : tagCount 'f' l = 0
      · rw [decodeStep_f_rest gd s e hf h,
          decodeLoop_x_top gd l _ (by exact hcl)
            (by rwa [tagCount_cons_ne _ _ _ (by simp [hf])] at hb)]
        show Function.update s.x (gd.order + 1) (gd.x (gd.len - 1) + global_border)
          (gd.order + 1) = gd.x (gd.len - 1) + global_border
        exact Function.update_same _ _ _
      · rw [decodeStep_f_rest gd s e hf h]
        exact ih _ (by exact h) (by omega)
          (by rwa [tagCount_cons_ne _ _ _ (by simp [hf])] at hb)
    · rw [decodeStep_other gd s e (by simp [hx, hy, ha, hf])]
      exact ih _ h (by rwa [tagCount_cons_ne _ _ _ hf] at hc)
        (by rwa [tagCount_cons_ne _ _ _ hx] at hb)

lemma decodeLoop_f_last_y (gd : GlobalData) :
    ∀ (l : List (List Char × ℝ)) (s : DecState),
      s.f_loc ≠ 0 → 1 ≤ tagCount 'f' l → s.y_loc + tagCount 'y' l ≤ gd.order + 1 →
      (decodeLoop gd s l).y (gd.order + 1) = (tagVals 'f' l).getLastD 0 := by
  intro l
  induction l with
  | nil => intro s _ hc _; rw [tagCount_nil] at hc; omega
  | cons e l ih =>
    intro s h hc hb
    rw [decodeLoop_cons]
    by_cases hx : tagOf e.1 = 'x'
    · rw [decodeStep_x gd s e hx, tagVals_cons_ne 'f' e l (by simp [hx])]
      exact ih _ (by exact h)
        (by rwa [tagCount_cons_ne _ _ _ (by simp [hx])] at hc)
        (by rwa [tagCount_cons_ne _ _ _ (by simp [hx])] at hb)
    by_cases hy : tagOf e.1 = 'y'
    · have hcy := tagCount_cons_self 'y' e l hy
      rw [decodeStep_y gd s e hy, tagVals_cons_ne 'f' e l (by simp [hy])]
      exact ih _ (by exact h)
        (by rwa [tagCount_cons_ne _ _ _ (by simp [hy])] at hc)
        (by show s.y_loc + 1 + tagCount 'y' l ≤ gd.order + 1; omega)
    by_cases ha : tagOf e.1 = 'a'
    · rw [decodeStep_a gd s e ha, tagVals_cons_ne 'f' e l (by simp [ha])]
      exact ih _ (by exact h)
        (by rwa [tagCount_cons_ne _ _ _ (by simp [ha])] at hc)
        (by rwa [tagCount_cons_ne _ _ _ (by simp [ha])] at hb)
    by_cases hf : tagOf e.1 = 'f'
    · rw [tagVals_cons_self 'f' e l hf, List.getLastD_cons]
      by_cases hcl : tagCount 'f' l = 0
      · rw [tagVals_eq_nil_of_count 'f' l hcl, decodeStep_f_rest gd s e hf h,
          decodeLoop_y_top gd l _ (by exact hcl)
            (by rwa [tagCount_cons_ne _ _ _ (by simp [hf])] at hb)]
        show Function.update s.y (gd.order + 1) e.2 (gd.order + 1) = ([] : List ℝ).getLastD e.2
        exact Function.update_same _ _ _
      · have hne : tagVals 'f' l ≠ [] := by
          apply List.length_pos.mp
          show 0 < tagCount 'f' l
          omega
        rw [getLastD_default_irrel _ e.2 0 hne, decodeStep_f_rest gd s e hf h]
        exact ih _ (by exact h) (by omega)
          (by rwa [tagCount_cons_ne _ _ _ (by simp [hf])] at hb)
    · rw [decodeStep_other gd s e (by simp [hx, hy, ha, hf]),
        tagVals_cons_ne 'f' e l hf]
      exact ih _ h (by rwa [tagCount_cons_ne _ _ _ hf] at hc)
        (by rwa [tagCount_cons_ne _ _ _ hy] at hb)

lemma decodeLoop_f_second_x (gd : GlobalData) :
    ∀ (l : List (List Char × ℝ)) (s : DecState),
      s.f_loc = 0 → 1 ≤ s.x_loc → 2 ≤ tagCount 'f' l →
      s.x_loc + tagCount 'x' l ≤ gd.order + 1 →
      (decodeLoop gd s l).x (gd.order + 1) = gd.x (gd.len - 1) + global_border := by
  intro l
  induction l with
  | nil => intro s _ _ hc _; rw [tagCount_nil] at hc; omega
  | cons e l ih =>
    intro s h0 hx1 hc hb
    rw [decodeLoop_cons]
    by_cases hx : tagOf e.1 = 'x'
    · have hcx := tagCount_cons_self 'x' e l hx
      rw [decodeStep_x gd s e hx]
      exact ih _ (by exact h0) (by show 1 ≤ s.x_loc + 1; omega)
        (by rwa [tagCount_cons_ne _ _ _ (by simp [hx])] at hc)
        (by show s.x_loc + 1 + tagCount 'x' l ≤ gd.order + 1; omega)
    by_cases hy : tagOf e.1 = 'y'
    · rw [decodeStep_y gd s e hy]
      exact ih _ (by exact h0) (by exact hx1)
        (by rwa [tagCount_cons_ne _ _ _ (by simp [hy])] at hc)
        (by rwa [tagCount_cons_ne _ _ _ (by simp [hy])] at hb)
    by_cases ha : tagOf e.1 = 'a'
    · rw [decodeStep_a gd s e ha]
      exact ih _ (by exact h0) (by exact hx1)
        (by rwa [tagCount_cons_ne _ _ _ (by simp [ha])] at hc)
        (by rwa [tagCount_cons_ne _ _ _ (by simp [ha])] at hb)
    by_cases hf : tagOf e.1 = 'f'
    · have hcf := tagCount_cons_self 'f' e l hf
      rw [decodeStep_f_first gd s e hf h0]
      exact decodeLoop_f_last_x gd l _ (by show s.f_loc + 1 ≠ 0; omega) (by omega)
        (by rwa [tagCount_cons_ne _ _ _ (by simp [hf])] at hb)
    · rw [decodeStep_other gd s e (by simp [hx, hy, ha, hf])]
      exact ih _ h0 hx1 (by rwa [tagCount_cons_ne _ _ _ hf] at hc)
        (by rwa [tagCount_cons_ne _ _ _ hx] at hb)

lemma decodeLoop_f_second_y (gd : GlobalData) :
    ∀ (l : List (List Char × ℝ)) (s : DecState),
      s.f_loc = 0 → 1 ≤ s.y_loc → 2 ≤ tagCount 'f' l →
      s.y_loc + tagCount 'y' l ≤ gd.order + 1 →
      (decodeLoop gd s l).y (gd.order + 1) = (tagVals 'f' l).getLastD 0 := by
  intro l
  induction l with
  | nil => intro s _ _ hc _; rw [tagCount_nil] at hc; omega
  | cons e l ih =>
    intro s h0 hy1 hc hb
    rw [decodeLoop_cons]
    by_cases hx : tagOf e.1 = 'x'
    · rw [decodeStep_x gd s e hx, tagVals_cons_ne 'f' e l (by simp [hx])]
      exact ih _ (by exact h0) (by exact hy1)
        (by rwa [tagCount_cons_ne _ _ _ (by simp [hx])] at hc)
        (by rwa [tagCount_cons_ne _ _ _ (by simp [hx])] at hb)
    by_cases hy : tagOf e.1 = 'y'
    · have hcy := tagCount_cons_self 'y' e l hy
      rw [decodeStep_y gd s e hy, tagVals_cons_ne 'f' e l (by simp [hy])]
      exact ih _ (by exact h0) (by show 1 ≤ s.y_loc + 1; omega)
        (by rwa [tagCount_cons_ne _ _ _ (by simp [hy])] at hc)
        (by show s.y_loc + 1 + tagCount 'y' l ≤ gd.order + 1; omega)
    by_cases ha : tagOf e.1 = 'a'
    · rw [decodeStep_a gd s e ha, tagVals_cons_ne 'f' e l (by simp [ha])]
      exact ih _ (by exact h0) (by exact hy1)
        (by rwa [tagCount_cons_ne _ _ _ (by simp [ha])] at hc)
        (by rwa [tagCount_cons_ne _ _ _ (by simp [ha])] at hb)
    by_cases hf : tagOf e.1 = 'f'
    · have hcf := tagCount_cons_self 'f' e l hf
      have hne : tagVals 'f' l ≠ [] := by
        apply List.length_pos.mp
        show 0 < tagCount 'f' l
        omega
      rw [tagVals_cons_self 'f' e l hf, List.getLastD_cons,
        getLastD_default_irrel _ e.2 0 hne, decodeStep_f_first gd s e hf h0]
      exact decodeLoop_f_last_y gd l _ (by show s.f_loc + 1 ≠ 0; omega) (by omega)
        (by rwa [tagCount_cons_ne _ _ _ (by simp [hf])] at hb)
    · rw [decodeStep_other gd s e (by simp [hx, hy, ha, hf]),
        tagVals_cons_ne 'f' e l hf]
      exact ih _ h0 hy1 (by rwa [tagCount_cons_ne _ _ _ hf] at hc)
        (by rwa [tagCount_cons_ne _ _ _ hy] at hb)

lemma getLastD_of_len_two (xs : List ℝ) (h : xs.length = 2) :
    xs.getLastD 0 = xs.getD 1 0 := by
  rcases xs with _ | ⟨a, _ | ⟨b, _ | ⟨c, t⟩⟩⟩
  · simp at h
  · simp at h
  · rfl
  · exfalso
    simp [List.length_cons] at h

/-! ### Claim theorems -/

/-- C4: the decoder assigns each entry by its name's leading character in
encounter order, without sorting: the k-th `x`-tagged value becomes interior
knot x-position `k` (positions `1..order` of the knot-x sequence, hence the
hypotheses bounding the `x` and `y` tag counts by `order`), the k-th
`y`-tagged value becomes interior knot y-position `k`, and `a`-tagged values
are appended to the foreground-coefficient sequence in encounter order. -/
theorem kwargs2coef_encounter_order (gd : GlobalData) (gx gy ga : ℕ → ℝ)
    (keys : List (List Char)) (val : List ℝ)
    (hx : tagCount 'x' (keys.zip val) ≤ gd.order)
    (hy : tagCount 'y' (keys.zip val) ≤ gd.order) :
    (List.range (tagCount 'x' (keys.zip val))).map
        (fun k => (kwargs2coef gd gx gy ga keys val).x (1 + k))
      = tagVals 'x' (keys.zip val)
    ∧ (List.range (tagCount 'y' (keys.zip val))).map
        (fun k => (kwargs2coef gd gx gy ga keys val).y (1 + k))
      = tagVals 'y' (keys.zip val)
    ∧ (List.range (tagCount 'a' (keys.zip val))).map
        (fun k => (kwargs2coef gd gx gy ga keys val).a k)
      = tagVals 'a' (keys.zip val) := by
  refine ⟨?_, ?_, ?_⟩
  · apply map_range_eq_of_getD
    intro k hk
    exact decodeLoop_x_slot gd (keys.zip val) ⟨gx, gy, ga, 1, 1, 0, 0⟩ k
      (by show (1 : ℕ) ≤ 1; omega)
      (by show 1 + tagCount 'x' (keys.zip val) ≤ gd.order + 1; omega) hk
  · apply map_range_eq_of_getD
    intro k hk
    exact decodeLoop_y_slot gd (keys.zip val) ⟨gx, gy, ga, 1, 1, 0, 0⟩ k
      (by show (1 : ℕ) ≤ 1; omega)
      (by show 1 + tagCount 'y' (keys.zip val) ≤ gd.order + 1; omega) hk
  · apply map_range_eq_of_getD
    intro k hk
    have h5 := decodeLoop_a_slot gd (keys.zip val) ⟨gx, gy, ga, 1, 1, 0, 0⟩ k hk
    simpa using h5

/-- Witness for C4 at a concrete schema-conformant proposal with
`order = 2`: two `x` entries, two `y` entries, two `f` entries and two `a`
entries. -/
theorem kwargs2coef_encounter_order_witness :
    tagCount 'x' (keysW.zip valsW) ≤ gdW.order
    ∧ tagCount 'y' (keysW.zip valsW) ≤ gdW.order
    ∧ ((List.range (tagCount 'x' (keysW.zip valsW))).map
          (fun k => (kwargs2coef gdW (fun _ => 0) (fun _ => 0) (fun _ => 0) keysW valsW).x (1 + k))
        = tagVals 'x' (keysW.zip valsW)
      ∧ (List.range (tagCount 'y' (keysW.zip valsW))).map
          (fun k => (kwargs2coef gdW (fun _ => 0) (fun _ => 0) (fun _ => 0) keysW valsW).y (1 + k))
        = tagVals 'y' (keysW.zip valsW)
      ∧ (List.range (tagCount 'a' (keysW.zip valsW))).map
          (fun k => (kwargs2coef gdW (fun _ => 0) (fun _ => 0) (fun _ => 0) keysW valsW).a k)
        = tagVals 'a' (keysW.zip valsW)) :=
  ⟨by decide, by decide,
    kwargs2coef_encounter_order gdW (fun _ => 0) (fun _ => 0) (fun _ => 0) keysW valsW
      (by decide) (by decide)⟩

/-- C5: the two boundary knot x-positions are fixed at `x[0] - 0.1` and
`x[len-1] + 0.1` (border constant 0.1), the first `f`-tagged entry sets the
left-boundary y-value (knot index 0) and the second sets the right-boundary
y-value (knot index `order + 1`). -/
theorem kwargs2coef_boundaries (gd : GlobalData) (gx gy ga : ℕ → ℝ)
    (keys : List (List Char)) (val : List ℝ)
    (hf : tagCount 'f' (keys.zip val) = 2)
    (hx : tagCount 'x' (keys.zip val) ≤ gd.order)
    (hy : tagCount 'y' (keys.zip val) ≤ gd.order) :
    (kwargs2coef gd gx gy ga keys val).x 0 = gd.x 0 - global_border
    ∧ (kwargs2coef gd gx gy ga keys val).x (gd.order + 1)
        = gd.x (gd.len - 1) + global_border
    ∧ (kwargs2coef gd gx gy ga keys val).y 0 = (tagVals 'f' (keys.zip val)).headD 0
    ∧ (kwargs2coef gd gx gy ga keys val).y (gd.order + 1)
        = (tagVals 'f' (keys.zip val)).getD 1 0 := by
  refine ⟨?_, ?_, ?_, ?_⟩
  · exact decodeLoop_f_first_x gd (keys.zip val) ⟨gx, gy, ga, 1, 1, 0, 0⟩ rfl
      (by show (1 : ℕ) ≤ 1; omega) (by omega)
  · exact decodeLoop_f_second_x gd (keys.zip val) ⟨gx, gy, ga, 1, 1, 0, 0⟩ rfl
      (by show (1 : ℕ) ≤ 1; omega) (by omega)
      (by show 1 + tagCount 'x' (keys.zip val) ≤ gd.order + 1; omega)
  · exact decodeLoop_f_first_y gd (keys.zip val) ⟨gx, gy, ga, 1, 1, 0, 0⟩ rfl
      (by show (1 : ℕ) ≤ 1; omega) (by omega)
  · rw [← getLastD_of_len_two (tagVals 'f' (keys.zip val)) hf]
    exact decodeLoop_f_second_y gd (keys.zip val) ⟨gx, gy, ga, 1, 1, 0, 0⟩ rfl
      (by show (1 : ℕ) ≤ 1; omega) (by omega)
      (by show 1 + tagCount 'y' (keys.zip val) ≤ gd.order + 1; omega)

/-- Witness for C5 at `order = 0` and the proposal `[f, f, a]` with values
`[7, 9, 11]`. -/
theorem kwargs2coef_boundaries_witness :
    tagCount 'f' (keys5W.zip vals5W) = 2
    ∧ tagCount 'x' (keys5W.zip vals5W) ≤ gd0.order
    ∧ tagCount 'y' (keys5W.zip vals5W) ≤ gd0.order
    ∧ ((kwargs2coef gd0 (fun _ => 0) (fun _ => 0) (fun _ => 0) keys5W vals5W).x 0
          = gd0.x 0 - global_border
      ∧ (kwargs2coef gd0 (fun _ => 0) (fun _ => 0) (fun _ => 0) keys5W vals5W).x (gd0.order + 1)
          = gd0.x (gd0.len - 1) + global_border
      ∧ (kwargs2coef gd0 (fun _ => 0) (fun _ => 0) (fun _ => 0) keys5W vals5W).y 0
          = (tagVals 'f' (keys5W.zip vals5W)).headD 0
      ∧ (kwargs2coef gd0 (fun _ => 0) (fun _ => 0) (fun _ => 0) keys5W vals5W).y (gd0.order + 1)
          = (tagVals 'f' (keys5W.zip vals5W)).getD 1 0) :=
  ⟨by decide, by decide, by decide,
    kwargs2coef_boundaries gd0 (fun _ => 0) (fun _ => 0) (fun _ => 0) keys5W vals5W
      (by decide) (by decide) (by decide)⟩

/-- C9: an entry whose name's leading character is not one of `x`, `y`, `a`,
`f` is silently skipped by the decoding loop: deleting it from the proposal
vector leaves the entire decoder state (all buckets and all counters)
unchanged, and no error is raised. -/
theorem decodeLoop_skips_unknown_tags (gd : GlobalData) (s : DecState)
    (pre suf : List (List Char × ℝ)) (e : List Char × ℝ)
    (h : tagOf e.1 ∉ (['x', 'y', 'a', 'f'] : List Char)) :
    decodeLoop gd s (pre ++ e :: suf) = decodeLoop gd s (pre ++ suf) := by
  rw [decodeLoop_append, decodeLoop_append, decodeLoop_cons,
    decodeStep_other gd _ e h]

/-- Witness for C9: a `z`-tagged entry is skipped. -/
theorem decodeLoop_skips_unknown_tags_witness :
    (tagOf (['z'] : List Char) ∉ (['x', 'y', 'a', 'f'] : List Char))
    ∧ decodeLoop gd0 s0 ([] ++ (⟨['z'], (5 : ℝ)⟩ : List Char × ℝ) :: [])
        = decodeLoop gd0 s0 ([] ++ []) :=
  ⟨by decide, decodeLoop_skips_unknown_tags gd0 s0 [] [] ⟨['z'], (5 : ℝ)⟩ (by decide)⟩

/-- C10: on a proposal vector with three or more `f`-tagged entries (and at
most `order` interior `y` entries, so that no interior write reaches the
boundary slot), every `f` entry after the first writes the right-boundary
knot index `order + 1`, so the last one wins there while the left boundary
keeps the first entry's value, and the `f` counter ends at 1 — it never
advances past 1. -/
theorem kwargs2coef_extra_f_entries (gd : GlobalData) (gx gy ga : ℕ → ℝ)
    (keys : List (List Char)) (val : List ℝ)
    (hf : 3 ≤ tagCount 'f' (keys.zip val))
    (hy : tagCount 'y' (keys.zip val) ≤ gd.order) :
    (kwargs2coef gd gx gy ga keys val).f_loc = 1
    ∧ (kwargs2coef gd gx gy ga keys val).y 0 = (tagVals 'f' (keys.zip val)).headD 0
    ∧ (kwargs2coef gd gx gy ga keys val).y (gd.order + 1)
        = (tagVals 'f' (keys.zip val)).getLastD 0 := by
  refine ⟨?_, ?_, ?_⟩
  · exact decodeLoop_f_loc_zero gd (keys.zip val) ⟨gx, gy, ga, 1, 1, 0, 0⟩ rfl (by omega)
  · exact decodeLoop_f_first_y gd (keys.zip val) ⟨gx, gy, ga, 1, 1, 0, 0⟩ rfl
      (by show (1 : ℕ) ≤ 1; omega) (by omega)
  · exact decodeLoop_f_second_y gd (keys.zip val) ⟨gx, gy, ga, 1, 1, 0, 0⟩ rfl
      (by show (1 : ℕ) ≤ 1; omega) (by omega)
      (by show 1 + tagCount 'y' (keys.zip val) ≤ gd.order + 1; omega)

/-- Witness for C10 at the proposal `[f, f, f]` with values `[21, 22, 23]`
and `order = 0`. -/
theorem kwargs2coef_extra_f_entries_witness :
    3 ≤ tagCount 'f' (keys10W.zip vals10W)
    ∧ tagCount 'y' (keys10W.zip vals10W) ≤ gd0.order
    ∧ ((kwargs2coef gd0 (fun _ => 0) (fun _ => 0) (fun _ => 0) keys10W vals10W).f_loc = 1
      ∧ (kwargs2coef gd0 (fun _ => 0) (fun _ => 0) (fun _ => 0) keys10W vals10W).y 0
          = (tagVals 'f' (keys10W.zip vals10W)).headD 0
      ∧ (kwargs2coef gd0 (fun _ => 0) (fun _ => 0) (fun _ => 0) keys10W vals10W).y (gd0.order + 1)
          = (tagVals 'f' (keys10W.zip vals10W)).getLastD 0) :=
  ⟨by decide, by decide,
    kwargs2coef_extra_f_entries gd0 (fun _ => 0) (fun _ => 0) (fun _ => 0) keys10W vals10W
      (by decide) (by decide)⟩

/-- C6: the decoder performs no schema validation.  On the malformed
proposal `keys6` (only one `x`-tagged entry while `order = 2`), it returns
normally — there is no error path — with the interior knot slot 2 still
holding the uninitialised malloc contents `gx 2`, and with its `x` counter
stopped at 2 instead of `order + 1 = 3`.  (In the C source the same call
also computes the `a`-buffer size as the underflowing `size_t` expression
`len - (2*order + 2) = 5 - 6`.)  This contradicts the specified behaviour
of failing with `DecodeError`. -/
theorem kwargs2coef_missing_x_unchecked :
    ∀ gx gy ga : ℕ → ℝ,
      (kwargs2coef gd6 gx gy ga keys6 vals6).x 2 = gx 2
      ∧ (kwargs2coef gd6 gx gy ga keys6 vals6).x_loc = 2 := by
  intro gx gy ga
  constructor
  · simp [kwargs2coef, keys6, vals6, gd6, decodeLoop, decodeStep, tagOf,
      Function.update]
  · simp [kwargs2coef, keys6, vals6, gd6, decodeLoop, decodeStep, tagOf]

/-- C3: the EDGES foreground equals the five-term power-law-with-log
formula of the spec, and at the reference frequency `nu = 75` with
coefficients `[1, 2, 3, 4, 5]` it evaluates to exactly 10. -/
theorem t21fg_edgesa_formula (a : ℕ → ℝ) (nu : ℝ) (h : 0 < nu) :
    t21fg_edgesa a nu
      = a 0 * (nu / 75) ^ (-2.5 : ℝ)
        + a 1 * (nu / 75) ^ (-2.5 : ℝ) * Real.log (nu / 75)
        + a 2 * (nu / 75) ^ (-2.5 : ℝ) * Real.log (nu / 75) ^ 2
        + a 3 * (nu / 75) ^ (-4.5 : ℝ)
        + a 4 * (nu / 75) ^ (-2.0 : ℝ)
    ∧ t21fg_edgesa aEdges 75 = 10 := by
  constructor
  · rfl
  · have h75 : (75 : ℝ) / 75 = 1 := by norm_num
    have e0 : aEdges 0 = 1 := rfl
    have e1 : aEdges 1 = 2 := rfl
    have e2 : aEdges 2 = 3 := rfl
    have e3 : aEdges 3 = 4 := rfl
    have e4 : aEdges 4 = 5 := rfl
    simp only [t21fg_edgesa, e0, e1, e2, e3, e4, h75, Real.one_rpow, Real.log_one]
    norm_num

/-- Witness for C3 at `nu = 75` and `a = aEdges`. -/
theorem t21fg_edgesa_formula_witness :
    (0 : ℝ) < 75
    ∧ (t21fg_edgesa aEdges 75
        = aEdges 0 * ((75 : ℝ) / 75) ^ (-2.5 : ℝ)
          + aEdges 1 * ((75 : ℝ) / 75) ^ (-2.5 : ℝ) * Real.log ((75 : ℝ) / 75)
          + aEdges 2 * ((75 : ℝ) / 75) ^ (-2.5 : ℝ) * Real.log ((75 : ℝ) / 75) ^ 2
          + aEdges 3 * ((75 : ℝ) / 75) ^ (-4.5 : ℝ)
          + aEdges 4 * ((75 : ℝ) / 75) ^ (-2.0 : ℝ)
      ∧ t21fg_edgesa aEdges 75 = 10) :=
  ⟨by norm_num, t21fg_edgesa_formula aEdges 75 (by norm_num)⟩

/-- C2 counterexample: the source's Sims–Pober series and the series as the
spec writes it (exponent `i` instead of `4 + i` on `log10(nu/nuc)`) differ
at `nu = 75` with `d = [0, 1, 0, 0, 1, 0, 0, 0, 0]`: the code yields 5, the
spec's formula 14. -/
theorem t21fg_sims_exponent_counterexample :
    t21fg_sims dSims 75 ≠ t21fg_sims_specSeries dSims 75 := by
  have h75 : (75 : ℝ) / 75 = 1 := by norm_num
  have hlog : Real.logb 10 ((75 : ℝ) / 75) = 0 := by rw [h75]; simp
  have d0 : dSims 0 = 0 := rfl
  have d2 : dSims 2 = 0 := rfl
  have d3 : dSims 3 = 0 := rfl
  have d4 : dSims 4 = 1 := rfl
  have d5 : dSims 5 = 0 := rfl
  have d6 : dSims 6 = 0 := rfl
  have d7 : dSims 7 = 0 := rfl
  have d8 : dSims 8 = 0 := rfl
  simp only [t21fg_sims, t21fg_sims_specSeries]
  rw [foldl_add_eq_sum, foldl_add_eq_sum]
  simp only [Finset.sum_range_succ, Finset.sum_range_zero, hlog, h75]
  norm_num [d0, d2, d3, d4, d5, d6, d7, d8, Real.rpow_zero, Real.rpow_one,
    Real.one_rpow]

/-- C2, amended: the Sims–Pober foreground equals the calibration term plus
the five-term series in which the `i`-th term uses coefficient `d (4+i)`
and exponent `4 + i` (not `i`) on `log10(nu/75)`. -/
theorem t21fg_sims_exponent_amended (d : ℕ → ℝ) (nu : ℝ) (h : 0 < nu) :
    t21fg_sims d nu
      = (nu / 75) ^ (d 0) * (d 2 * Real.sin (2 * Real.pi * nu / d 1)
          + d 3 * Real.cos (2 * Real.pi * nu / d 1))
        + ∑ i ∈ Finset.range 5,
            (10 : ℝ) ^ (d (4 + i) * Real.logb 10 (nu / 75) ^ (4 + i)) := by
  simp only [t21fg_sims]
  rw [foldl_add_eq_sum]
  ring

/-- Witness for the amended C2 at `nu = 75`, `d = dSims`. -/
theorem t21fg_sims_exponent_amended_witness :
    (0 : ℝ) < 75
    ∧ t21fg_sims dSims 75
        = ((75 : ℝ) / 75) ^ (dSims 0) * (dSims 2 * Real.sin (2 * Real.pi * 75 / dSims 1)
            + dSims 3 * Real.cos (2 * Real.pi * 75 / dSims 1))
          + ∑ i ∈ Finset.range 5,
              (10 : ℝ) ^ (dSims (4 + i) * Real.logb 10 ((75 : ℝ) / 75) ^ (4 + i)) :=
  ⟨by norm_num, t21fg_sims_exponent_amended dSims 75 (by norm_num)⟩

/-- C1: for every dataset state and every proposal, `log_likleyhood` returns
the sum over observation indices `i < len` of the Gaussian log-density
`-0.5*((y[i]-model[i])/sigma)^2 - ln(sqrt(2*pi)*sigma)` with `sigma = 0.025`
and `model[i] = spline_eval[i] + t21fg(a, x[i])`, where `spline_eval` is
the spline library's output on the decoded knots and `a` the decoded
foreground coefficients. -/
theorem log_likleyhood_gaussian_sum (lib : SplineLib) (g : Globals)
    (gx gy ga : ℕ → ℝ) (keys : List (List Char)) (val : List ℝ) :
    (log_likleyhood lib g gx gy ga keys val).1
      = ∑ i ∈ Finset.range g.global_data.len,
          (-0.5 * ((g.global_data.y i
              - (pchip_out_of lib g.global_data
                    (kwargs2coef g.global_data gx gy ga keys val) i
                  + t21fg (kwargs2coef g.global_data gx gy ga keys val).a
                      (g.global_data.x i))) / 0.025) ^ 2
            - Real.log (Real.sqrt (2 * Real.pi) * 0.025)) := by
  simp only [log_likleyhood]
  rw [foldl_add_eq_sum, zero_add]
  rfl

/-- C7: the evaluation result is a function of the dataset and the proposal
alone — it does not depend on the scratch-buffer contents left over from any
previous call, so two calls with identical names and values return identical
results. -/
theorem log_likleyhood_deterministic (lib : SplineLib) (gd : GlobalData)
    (buf1 buf2 : PchipBuffer) (gx gy ga : ℕ → ℝ) (keys : List (List Char))
    (val : List ℝ) :
    (log_likleyhood lib ⟨gd, buf1⟩ gx gy ga keys val).1
      = (log_likleyhood lib ⟨gd, buf2⟩ gx gy ga keys val).1 := rfl

/-- C8: a call to `log_likleyhood` leaves the dataset fields (`x`, `y`,
`len`, `order`) of the global state unchanged; only the scratch buffers are
overwritten. -/
theorem log_likleyhood_preserves_dataset (lib : SplineLib) (g : Globals)
    (gx gy ga : ℕ → ℝ) (keys : List (List Char)) (val : List ℝ) :
    (log_likleyhood lib g gx gy ga keys val).2.global_data = g.global_data := rfl

end Libflex

end
